import Mathlib

/-!
Verification of the irrigation-drip controller (`src/irrigationESP32.ino`).

The development shallowly embeds the scheduling and persistence engine:
the EEPROM byte store, the Fletcher-style program-table checksum, the
boot-time validation and recovery logic, the wear-leveled elapsed-time
log, the per-tick schedule evaluator for programs 1..8 over stations
3..12, the backwash interleaver for stations 1, 2 and 0xD, and the
four-button control state machine.
-/

namespace Irrigation

/-! ## EEPROM layout constants (from the `#define` block of the sketch) -/

def CK1 : Nat := 96
def CK2 : Nat := 97
def LAST_PROG : Nat := 102
def STATUS : Nat := 103
def LAST_TIME_INDEX : Nat := 104
def LAST_TIME_BASE : Nat := 105
def LAST_TIME_SIZE : Nat := 16
def PROGS : Nat := 10
def MAX_PROG : Nat := 5
def STATIONS : Nat := 16
def EBASE : Nat := 180

/-! ## EEPROM model

The EEPROM is byte addressable; `EEPROM.write` stores a `uint8_t`, so a
write truncates its argument modulo 256, and every read yields a byte. -/

abbrev Eeprom : Type := Nat → Nat

def eread (e : Eeprom) (a : Nat) : Nat := e a % 256

def ewrite (e : Eeprom) (a v : Nat) : Eeprom :=
  fun x => if x = a then v % 256 else e x

/-- `read_eeprom(p, s)`: `EEPROM.read(EBASE + p*STATIONS + s)`. -/
def read_eeprom (e : Eeprom) (p s : Nat) : Nat :=
  eread e (EBASE + p * STATIONS + s)

/-- `update_eeprom(p, s, d)`: `EEPROM.write(EBASE + p*STATIONS + s, d)`. -/
def update_eeprom (e : Eeprom) (p s d : Nat) : Eeprom :=
  ewrite e (EBASE + p * STATIONS + s) d

/-! ## Checksum (`checksum()` — Fletcher16 over the 160-entry table) -/

/-- One step of the Fletcher fold:
`sum1 = (sum1 + v) % 255; sum2 = (sum2 + sum1) % 255`. -/
def ckStep (ab : Nat × Nat) (v : Nat) : Nat × Nat :=
  ((ab.1 + v) % 255, (ab.2 + (ab.1 + v) % 255) % 255)

/-- The nested `for(a..) for(b..)` Fletcher fold of `checksum()`, with
`sum1` seeded at the non-zero constant 456 and `sum2` at 0. -/
def ckFold (e : Eeprom) : Nat × Nat :=
  (List.range PROGS).foldl
    (fun ab a => (List.range STATIONS).foldl
      (fun ab b => ckStep ab (read_eeprom e a b)) ab)
    (456, 0)

/-- `checksum()`: two-accumulator fold over all `PROGS × STATIONS` table
entries, result `((sum2 << 8) | sum1) & 0x7fff`. -/
def checksum (e : Eeprom) : Nat :=
  (((ckFold e).2 <<< 8) ||| (ckFold e).1) &&& 0x7fff

/-- `update_checksum()`: `EEPROM.write(CK1, c & 0xff); EEPROM.write(CK2, c >> 8)`. -/
def update_checksum (e : Eeprom) : Eeprom :=
  let c := checksum e
  ewrite (ewrite e CK1 (c &&& 0xff)) CK2 (c >>> 8)

/-- The comparison value used on boot:
`(EEPROM.read(CK2)*256 + EEPROM.read(CK1)) & 0x7fff`. -/
def storedChecksum (e : Eeprom) : Nat :=
  (eread e CK2 * 256 + eread e CK1) &&& 0x7fff

/-! ## Boot-time table validation (`setup()`, checksum branch) -/

/-- The table-zeroing loop `for(p..) for(s..) update_eeprom(p, s, 0)`. -/
def zeroTable (e : Eeprom) : Eeprom :=
  (List.range PROGS).foldl
    (fun acc p => (List.range STATIONS).foldl
      (fun acc2 s => update_eeprom acc2 p s 0) acc)
    e

/-- Body of the `setup()` mismatch branch: zero the table, recompute the
checksum, reset the wear-level index, the live slot and the run flag. -/
def bootInitialize (e : Eeprom) : Eeprom :=
  let e1 := zeroTable e
  let e2 := update_checksum e1
  let e3 := ewrite e2 LAST_TIME_INDEX 0
  let e4 := ewrite e3 LAST_TIME_BASE 0
  ewrite e4 STATUS 0

/-- The checksum guard at the top of `setup()`. -/
def bootCheck (e : Eeprom) : Eeprom :=
  if storedChecksum e ≠ checksum e then bootInitialize e else e

/-! ## Crash recovery (`setup()`, run-state branch) -/

/-- `setup()` after the checksum guard: read `STATUS`; if running, read
the live wear-leveled slot; values above 240 (24 h in 6-minute units)
are discarded together with the run flag. -/
def recover (e : Eeprom) : Bool × Nat :=
  let run_mode := eread e STATUS != 0
  let last_time := if run_mode then eread e (LAST_TIME_BASE + eread e LAST_TIME_INDEX) else 0
  if last_time > 240 then (false, 0) else (run_mode, last_time)

/-- `lt = (unsigned int) last_time * 6` — minutes at which a recovered
run resumes. -/
def bootLt (e : Eeprom) : Nat := (recover e).2 * 6

/-! ## `start_runmode()` — persistence part -/

/-- EEPROM effect of `start_runmode()`: persist run-state and selector,
advance the wear-leveling index `(i + 1) % LAST_TIME_SIZE`, zero the
newly live slot. -/
def start_runmode_ee (e : Eeprom) (sel : Nat) : Eeprom :=
  let e1 := ewrite e STATUS 1
  let e2 := ewrite e1 LAST_PROG sel
  let i := (eread e2 LAST_TIME_INDEX + 1) % LAST_TIME_SIZE
  let e3 := ewrite e2 LAST_TIME_INDEX i
  ewrite e3 (LAST_TIME_BASE + eread e3 LAST_TIME_INDEX) 0

/-- `n` consecutive `start_runmode()` calls. -/
def startN (e : Eeprom) (sel : Nat) : Nat → Eeprom
  | 0 => e
  | n + 1 => start_runmode_ee (startN e sel n) sel

/-! ## Basic EEPROM lemmas -/

theorem eread_ewrite (e : Eeprom) (a v x : Nat) :
    eread (ewrite e a v) x = if x = a then v % 256 else eread e x := by
  unfold eread ewrite
  by_cases h : x = a <;> simp [h]

theorem eread_lt (e : Eeprom) (a : Nat) : eread e a < 256 :=
  Nat.mod_lt _ (by norm_num)

theorem foldl_ext {α β : Type} (f g : β → α → β) (l : List α)
    (h : ∀ b a, a ∈ l → f b a = g b a) : ∀ b, l.foldl f b = l.foldl g b := by
  induction l with
  | nil => intro b; rfl
  | cons x xs ih =>
    intro b
    simp only [List.foldl_cons]
    rw [h b x (List.mem_cons_self x xs)]
    exact ih (fun b a ha => h b a (List.mem_cons_of_mem x ha)) _

/-! ## Checksum lemmas -/

/-- `sum1` components of the table, per program row and in total. -/
def rowSum (e : Eeprom) (a : Nat) : Nat :=
  ((List.range STATIONS).map (read_eeprom e a)).sum

def tableSum (e : Eeprom) : Nat :=
  ((List.range PROGS).map (rowSum e)).sum

theorem ckFold_fst_mod (l : List Nat) :
    ∀ ab : Nat × Nat, (l.foldl ckStep ab).1 % 255 = (ab.1 + l.sum) % 255 := by
  induction l with
  | nil => intro ab; simp
  | cons x xs ih =>
    intro ab
    simp only [List.foldl_cons, List.sum_cons]
    rw [ih]
    show ((ab.1 + x) % 255 + xs.sum) % 255 = _
    rw [Nat.mod_add_mod]
    ring_nf

theorem ckFold_fst_lt (l : List Nat) :
    ∀ ab : Nat × Nat, l ≠ [] → (l.foldl ckStep ab).1 < 255 := by
  induction l with
  | nil => intro ab h; exact absurd rfl h
  | cons x xs ih =>
    intro ab _
    cases xs with
    | nil => exact Nat.mod_lt _ (by norm_num)
    | cons y ys =>
      simp only [List.foldl_cons]
      exact ih _ (List.cons_ne_nil _ _)

theorem inner_fold_as_list (e : Eeprom) (a : Nat) (ab : Nat × Nat) :
    (List.range STATIONS).foldl (fun ab b => ckStep ab (read_eeprom e a b)) ab
      = ((List.range STATIONS).map (read_eeprom e a)).foldl ckStep ab := by
  rw [List.foldl_map]

theorem ckFold_outer_mod (e : Eeprom) (lo : List Nat) :
    ∀ ab : Nat × Nat,
      ((lo.foldl
        (fun ab a => (List.range STATIONS).foldl
          (fun ab b => ckStep ab (read_eeprom e a b)) ab) ab).1) % 255
      = (ab.1 + (lo.map (rowSum e)).sum) % 255 := by
  induction lo with
  | nil => intro ab; simp
  | cons a l ih =>
    intro ab
    simp only [List.foldl_cons, List.map_cons, List.sum_cons]
    rw [ih]
    have h1 : ((List.range STATIONS).foldl
        (fun ab b => ckStep ab (read_eeprom e a b)) ab).1 % 255
        = (ab.1 + rowSum e a) % 255 := by
      rw [inner_fold_as_list, ckFold_fst_mod]; rfl
    omega

theorem ckFold_outer_lt (e : Eeprom) (lo : List Nat) :
    ∀ ab : Nat × Nat, lo ≠ [] →
      ((lo.foldl
        (fun ab a => (List.range STATIONS).foldl
          (fun ab b => ckStep ab (read_eeprom e a b)) ab) ab).1) < 255 := by
  intro ab hlo
  obtain ⟨l2, a, rfl⟩ := (List.eq_nil_or_concat lo).resolve_left hlo
  rw [List.concat_eq_append, List.foldl_append, List.foldl_cons, List.foldl_nil]
  rw [inner_fold_as_list]
  exact ckFold_fst_lt _ _ (by simp [STATIONS])

theorem ckFold_fst (e : Eeprom) : (ckFold e).1 = (456 + tableSum e) % 255 := by
  have h1 : (ckFold e).1 % 255 = (456 + tableSum e) % 255 :=
    ckFold_outer_mod e (List.range PROGS) (456, 0)
  have h2 : (ckFold e).1 < 255 :=
    ckFold_outer_lt e (List.range PROGS) (456, 0) (by simp [PROGS])
  omega

theorem checksum_le (e : Eeprom) : checksum e ≤ 32767 := by
  unfold checksum
  exact Nat.and_le_right

theorem checksum_mod_256 (e : Eeprom) : checksum e % 256 = (ckFold e).1 := by
  have hlt : (ckFold e).1 < 255 :=
    ckFold_outer_lt e (List.range PROGS) (456, 0) (by simp [PROGS])
  unfold checksum
  have h255 : (255 : Nat) = 2 ^ 8 - 1 := by norm_num
  have h1 : ∀ x : Nat, x % 256 = x &&& 255 := by
    intro x
    rw [h255, Nat.and_pow_two_sub_one_eq_mod]
  rw [h1]
  rw [Nat.and_assoc]
  have h2 : (32767 : Nat) &&& 255 = 255 := by decide
  rw [h2]
  rw [Nat.and_distrib_right]
  have h3 : ((ckFold e).2 <<< 8) &&& 255 = 0 := by
    rw [← h1, Nat.shiftLeft_eq]
    norm_num
  have h4 : (ckFold e).1 &&& 255 = (ckFold e).1 := by
    rw [← h1, Nat.mod_eq_of_lt (by omega)]
  rw [h3, h4, Nat.zero_or]

/-- Writes outside the program table leave `checksum` unchanged. -/
theorem checksum_congr (e1 e2 : Eeprom)
    (h : ∀ a b, read_eeprom e1 a b = read_eeprom e2 a b) :
    checksum e1 = checksum e2 := by
  have : ckFold e1 = ckFold e2 := by
    unfold ckFold
    apply foldl_ext
    intro ab a _
    apply foldl_ext
    intro ab2 b _
    rw [h]
  unfold checksum
  rw [this]

theorem read_eeprom_ewrite_low (e : Eeprom) (x v a b : Nat) (hx : x < EBASE) :
    read_eeprom (ewrite e x v) a b = read_eeprom e a b := by
  unfold read_eeprom
  rw [eread_ewrite]
  have : ¬ (EBASE + a * STATIONS + b = x) := by unfold EBASE at *; omega
  simp [this]

theorem checksum_update_checksum (e : Eeprom) :
    checksum (update_checksum e) = checksum e := by
  apply checksum_congr
  intro a b
  unfold update_checksum
  rw [read_eeprom_ewrite_low _ _ _ _ _ (by unfold CK2 EBASE; omega),
      read_eeprom_ewrite_low _ _ _ _ _ (by unfold CK1 EBASE; omega)]

/-- After `update_checksum()`, the stored two-byte value reads back as
exactly the recomputed checksum. -/
theorem stored_after_update (e : Eeprom) :
    storedChecksum (update_checksum e) = checksum e := by
  have hle : checksum e ≤ 32767 := checksum_le e
  have h255 : checksum e &&& 255 = checksum e % 256 := by
    have h : (255 : Nat) = 2 ^ 8 - 1 := by norm_num
    rw [h, Nat.and_pow_two_sub_one_eq_mod]
  have hsr : checksum e >>> 8 = checksum e / 256 := by
    rw [Nat.shiftRight_eq_div_pow]
  simp only [storedChecksum, update_checksum, eread_ewrite, CK1, CK2]
  norm_num
  rw [h255, hsr]
  have h1 : checksum e / 256 % 256 = checksum e / 256 := Nat.mod_eq_of_lt (by omega)
  have h2 : checksum e % 256 % 256 = checksum e % 256 := Nat.mod_mod_of_dvd _ dvd_rfl
  rw [h1, h2, Nat.div_add_mod']
  have h3 : (32767 : Nat) = 2 ^ 15 - 1 := by norm_num
  rw [h3, Nat.and_pow_two_sub_one_eq_mod]
  exact Nat.mod_eq_of_lt (by omega)

/-- C4: for every program table, recomputing and storing the checksum
(the two-accumulator modulo-255 fold over all 160 entries, masked to 15
bits, persisted as two bytes) followed immediately by the boot
validation comparison succeeds: the stored 15-bit value reads back equal
to the recomputed checksum and no table reset is triggered. -/
theorem C4_checksum_roundtrip (e : Eeprom) :
    storedChecksum (update_checksum e) = checksum (update_checksum e) ∧
    bootCheck (update_checksum e) = update_checksum e := by
  have h1 : storedChecksum (update_checksum e) = checksum e := stored_after_update e
  have h2 : checksum (update_checksum e) = checksum e := checksum_update_checksum e
  refine ⟨by rw [h1, h2], ?_⟩
  unfold bootCheck
  rw [h1, h2]
  simp

/-! ## Effect of a single-byte table change on the checksum -/

theorem sum_map_range_single (f g : Nat → Nat) :
    ∀ n k, k < n → (∀ j, j < n → j ≠ k → f j = g j) →
    ((List.range n).map f).sum + g k = ((List.range n).map g).sum + f k := by
  intro n
  induction n with
  | zero => intro k hk; omega
  | succ m ih =>
    intro k hk h
    rw [List.range_succ, List.map_append, List.map_append,
        List.sum_append, List.sum_append]
    by_cases hkm : k = m
    · subst hkm
      have : (List.range k).map f = (List.range k).map g := by
        apply List.map_congr_left
        intro j hj
        exact h j (by simpa using Nat.lt_succ_of_lt (List.mem_range.mp hj)) (by
          have := List.mem_range.mp hj; omega)
      rw [this]
      simp only [List.map_cons, List.map_nil, List.sum_cons, List.sum_nil]
      omega
    · have hk' : k < m := by omega
      have hfm : f m = g m := h m (Nat.lt_succ_self m) (fun hc => hkm hc.symm)
      have := ih k hk' (fun j hj hjk => h j (Nat.lt_succ_of_lt hj) hjk)
      simp only [List.map_cons, List.map_nil, List.sum_cons, List.sum_nil]
      omega

theorem read_update (e : Eeprom) (p s v a b : Nat) (hs : s < STATIONS) (hb : b < STATIONS) :
    read_eeprom (update_eeprom e p s v) a b
      = if a = p ∧ b = s then v % 256 else read_eeprom e a b := by
  unfold read_eeprom update_eeprom
  rw [eread_ewrite]
  unfold STATIONS at *
  unfold EBASE
  by_cases h : a = p ∧ b = s
  · obtain ⟨rfl, rfl⟩ := h
    simp
  · have : ¬ (180 + a * 16 + b = 180 + p * 16 + s) := by
      intro hc
      apply h
      constructor <;> omega
    simp [this, h]

theorem rowSum_update_other (e : Eeprom) (p s v a : Nat)
    (hs : s < STATIONS) (ha : a ≠ p) :
    rowSum (update_eeprom e p s v) a = rowSum e a := by
  unfold rowSum
  congr 1
  apply List.map_congr_left
  intro b hb
  rw [read_update e p s v a b hs (List.mem_range.mp hb)]
  simp [ha]

theorem rowSum_update_self (e : Eeprom) (p s v : Nat) (hs : s < STATIONS) :
    rowSum (update_eeprom e p s v) p + read_eeprom e p s
      = rowSum e p + v % 256 := by
  unfold rowSum
  have h := sum_map_range_single (read_eeprom (update_eeprom e p s v) p)
    (read_eeprom e p) STATIONS s hs (by
      intro j hj hjs
      rw [read_update e p s v p j hs hj]
      simp [hjs])
  have hself : read_eeprom (update_eeprom e p s v) p s = v % 256 := by
    rw [read_update e p s v p s hs hs]
    simp
  omega

theorem tableSum_update (e : Eeprom) (p s v : Nat) (hp : p < PROGS) (hs : s < STATIONS) :
    tableSum (update_eeprom e p s v) + read_eeprom e p s
      = tableSum e + v % 256 := by
  unfold tableSum
  have h := sum_map_range_single (rowSum (update_eeprom e p s v)) (rowSum e)
    PROGS p hp (fun a _ hap => rowSum_update_other e p s v a hs hap)
  have h2 := rowSum_update_self e p s v hs
  omega

/-- Changing one table byte to a value that differs modulo 255 changes
the checksum (the Fletcher low byte moves). -/
theorem checksum_update_ne (e : Eeprom) (p s v : Nat)
    (hp : p < PROGS) (hs : s < STATIONS) (hv : v < 256)
    (hdelta : v % 255 ≠ read_eeprom e p s % 255) :
    checksum (update_eeprom e p s v) ≠ checksum e := by
  intro hc
  have h1 : checksum (update_eeprom e p s v) % 256 = (ckFold (update_eeprom e p s v)).1 :=
    checksum_mod_256 _
  have h2 : checksum e % 256 = (ckFold e).1 := checksum_mod_256 e
  have h3 := ckFold_fst (update_eeprom e p s v)
  have h4 := ckFold_fst e
  have h5 := tableSum_update e p s v hp hs
  have h6 : read_eeprom e p s < 256 := eread_lt _ _
  have hv' : v % 256 = v := Nat.mod_eq_of_lt hv
  rw [hc] at h1
  omega

/-! ## Characterization of the boot-time reset -/

theorem eread_update (e : Eeprom) (p s v x : Nat) :
    eread (update_eeprom e p s v) x
      = if x = EBASE + p * STATIONS + s then v % 256 else eread e x := by
  unfold update_eeprom
  rw [eread_ewrite]

theorem innerZero_read (p : Nat) :
    ∀ (m : Nat) (acc : Eeprom) (x : Nat),
      eread ((List.range m).foldl (fun acc2 s => update_eeprom acc2 p s 0) acc) x
        = if EBASE + p * STATIONS ≤ x ∧ x < EBASE + p * STATIONS + m then 0
          else eread acc x := by
  intro m
  induction m with
  | zero =>
    intro acc x
    simp only [List.range_zero, List.foldl_nil]
    rw [if_neg (by omega)]
  | succ m2 ih =>
    intro acc x
    rw [List.range_succ, List.foldl_append, List.foldl_cons, List.foldl_nil]
    rw [eread_update, ih]
    split_ifs <;> omega

theorem zeroTable_read (e : Eeprom) (x : Nat) :
    eread (zeroTable e) x
      = if EBASE ≤ x ∧ x < EBASE + PROGS * STATIONS then 0 else eread e x := by
  unfold zeroTable
  have main : ∀ (n : Nat) (acc : Eeprom),
      eread ((List.range n).foldl
        (fun acc p => (List.range STATIONS).foldl
          (fun acc2 s => update_eeprom acc2 p s 0) acc) acc) x
        = if EBASE ≤ x ∧ x < EBASE + n * STATIONS then 0 else eread acc x := by
    intro n
    induction n with
    | zero =>
      intro acc
      simp only [List.range_zero, List.foldl_nil]
      rw [if_neg (by unfold EBASE; omega)]
    | succ n2 ih =>
      intro acc
      rw [List.range_succ, List.foldl_append, List.foldl_cons, List.foldl_nil]
      rw [innerZero_read, ih]
      unfold EBASE STATIONS
      split_ifs <;> omega
  exact main PROGS e

theorem read_update_checksum_eq (e : Eeprom) (a b : Nat) :
    read_eeprom (update_checksum e) a b = read_eeprom e a b := by
  unfold update_checksum
  rw [read_eeprom_ewrite_low _ _ _ _ _ (by unfold CK2 EBASE; omega),
      read_eeprom_ewrite_low _ _ _ _ _ (by unfold CK1 EBASE; omega)]

theorem bootInitialize_table (e : Eeprom) (a b : Nat) (ha : a < PROGS) (hb : b < STATIONS) :
    read_eeprom (bootInitialize e) a b = 0 := by
  unfold bootInitialize
  rw [read_eeprom_ewrite_low _ _ _ _ _ (by unfold STATUS EBASE; omega),
      read_eeprom_ewrite_low _ _ _ _ _ (by unfold LAST_TIME_BASE EBASE; omega),
      read_eeprom_ewrite_low _ _ _ _ _ (by unfold LAST_TIME_INDEX EBASE; omega)]
  rw [read_update_checksum_eq]
  unfold read_eeprom
  rw [zeroTable_read]
  unfold EBASE PROGS STATIONS at *
  have : 180 ≤ 180 + a * 16 + b ∧ 180 + a * 16 + b < 180 + 10 * 16 := by omega
  simp [this]

theorem storedChecksum_ewrite_low (e : Eeprom) (x v : Nat) (hx : CK2 < x) :
    storedChecksum (ewrite e x v) = storedChecksum e := by
  unfold storedChecksum
  rw [eread_ewrite, eread_ewrite]
  have h1 : ¬ (CK2 = x) := by omega
  have h2 : ¬ (CK1 = x) := by unfold CK1 CK2 at *; omega
  simp [h1, h2]

theorem bootInitialize_valid (e : Eeprom) :
    storedChecksum (bootInitialize e) = checksum (bootInitialize e) := by
  unfold bootInitialize
  rw [storedChecksum_ewrite_low _ _ _ (by unfold CK2 STATUS; omega),
      storedChecksum_ewrite_low _ _ _ (by unfold CK2 LAST_TIME_BASE; omega),
      storedChecksum_ewrite_low _ _ _ (by unfold CK2 LAST_TIME_INDEX; omega)]
  have h1 : storedChecksum (update_checksum (zeroTable e)) = checksum (zeroTable e) :=
    stored_after_update _
  have h2 : checksum (ewrite (ewrite (ewrite (update_checksum (zeroTable e))
      LAST_TIME_INDEX 0) LAST_TIME_BASE 0) STATUS 0) = checksum (zeroTable e) := by
    apply checksum_congr
    intro a b
    rw [read_eeprom_ewrite_low _ _ _ _ _ (by unfold STATUS EBASE; omega),
        read_eeprom_ewrite_low _ _ _ _ _ (by unfold LAST_TIME_BASE EBASE; omega),
        read_eeprom_ewrite_low _ _ _ _ _ (by unfold LAST_TIME_INDEX EBASE; omega)]
    exact read_update_checksum_eq _ a b
  rw [h1, h2]

/-- Writing a table byte does not disturb the stored checksum bytes. -/
theorem storedChecksum_update_eeprom (e : Eeprom) (p s v : Nat) :
    storedChecksum (update_eeprom e p s v) = storedChecksum e := by
  unfold update_eeprom
  exact storedChecksum_ewrite_low _ _ _ (by unfold CK2 EBASE; omega)

/-! ## C3 — corruption self-heal -/

/-- A persisted state with a valid stored checksum over an all-zero table. -/
def ckBase : Eeprom := update_checksum (fun _ => 0)

set_option maxRecDepth 8000 in
/-- C3 counterexample: flipping the byte at program 0, station 0 from
0x00 to 0xFF leaves the Fletcher mod-255 checksum unchanged, so booting
does not reset the table: the flipped entry still reads 255, not 0. -/
theorem C3_flip_counterexample :
    storedChecksum ckBase = checksum ckBase ∧
    read_eeprom ckBase 0 0 = 0 ∧
    read_eeprom (bootCheck (update_eeprom ckBase 0 0 255)) 0 0 = 255 := by
  refine ⟨by decide, by decide, by decide⟩

/-- C3 (amended): for every persisted state whose stored checksum
matches its program table, changing any single byte of the 160-entry
table to a value that differs from the old value modulo 255 (this
excludes only the 0x00 ↔ 0xFF flips, which Fletcher-255 cannot see) and
then booting triggers the corruption reset: after boot all 160 entries
read 0 and the stored checksum is valid for the zeroed table. -/
theorem C3_corruption_self_heal (e : Eeprom) (p s v : Nat)
    (hp : p < PROGS) (hs : s < STATIONS) (hv : v < 256)
    (hmatch : storedChecksum e = checksum e)
    (hdelta : v % 255 ≠ read_eeprom e p s % 255) :
    (∀ a b, a < PROGS → b < STATIONS →
      read_eeprom (bootCheck (update_eeprom e p s v)) a b = 0) ∧
    storedChecksum (bootCheck (update_eeprom e p s v)) =
      checksum (bootCheck (update_eeprom e p s v)) := by
  have hcne : checksum (update_eeprom e p s v) ≠ checksum e :=
    checksum_update_ne e p s v hp hs hv hdelta
  have hst : storedChecksum (update_eeprom e p s v) = storedChecksum e :=
    storedChecksum_update_eeprom e p s v
  have hmis : storedChecksum (update_eeprom e p s v) ≠ checksum (update_eeprom e p s v) := by
    rw [hst, hmatch]
    exact fun h => hcne h.symm
  have hbc : bootCheck (update_eeprom e p s v) = bootInitialize (update_eeprom e p s v) := by
    unfold bootCheck
    simp [hmis]
  rw [hbc]
  exact ⟨fun a b ha hb => bootInitialize_table _ a b ha hb, bootInitialize_valid _⟩

set_option maxRecDepth 8000 in
theorem C3_corruption_self_heal_witness :
    read_eeprom (bootCheck (update_eeprom ckBase 0 0 7)) 0 0 = 0 :=
  (C3_corruption_self_heal ckBase 0 0 7 (by decide) (by decide) (by decide)
    (by decide) (by decide)).1 0 0 (by decide) (by decide)

/-! ## C5, C10 — crash-recovery guards -/

/-- C5: on boot, if the persisted run-state is on but the live
elapsed-time log slot holds a value exceeding 240 (more than 24 hours in
6-minute units), recovery forces the result to
(was_running = false, elapsed = 0). -/
theorem C5_recovery_rejects (e : Eeprom)
    (hrun : eread e STATUS ≠ 0)
    (hval : eread e (LAST_TIME_BASE + eread e LAST_TIME_INDEX) > 240) :
    recover e = (false, 0) := by
  unfold recover
  have hb : (eread e STATUS != 0) = true := by simpa using hrun
  rw [hb]
  simp only [if_true]
  rw [if_pos hval]

/-- Persisted state: running, wear-level index 0, live slot holds 241. -/
def e241 : Eeprom := fun a => if a = 103 then 1 else if a = 105 then 241 else 0

theorem C5_recovery_rejects_witness : recover e241 = (false, 0) :=
  C5_recovery_rejects e241 (by decide) (by decide)

/-- C10: on boot with persisted run-state on, a live checkpoint value of
exactly 240 is accepted: recovery returns (true, 240) and the run
resumes at `lt = 1440` minutes; any value ≤ 240 is accepted, so only
values strictly greater than 240 are rejected. -/
theorem C10_checkpoint_240_accepted (e : Eeprom)
    (hrun : eread e STATUS ≠ 0) :
    (eread e (LAST_TIME_BASE + eread e LAST_TIME_INDEX) = 240 →
      recover e = (true, 240) ∧ bootLt e = 1440) ∧
    (∀ v, eread e (LAST_TIME_BASE + eread e LAST_TIME_INDEX) = v → v ≤ 240 →
      recover e = (true, v)) := by
  have hb : (eread e STATUS != 0) = true := by simpa using hrun
  have hgen : ∀ v, eread e (LAST_TIME_BASE + eread e LAST_TIME_INDEX) = v → v ≤ 240 →
      recover e = (true, v) := by
    intro v hv hle
    unfold recover
    rw [hb]
    simp only [if_true]
    rw [hv, if_neg (by omega)]
  refine ⟨fun h240 => ⟨hgen 240 h240 (by omega), ?_⟩, hgen⟩
  unfold bootLt
  rw [hgen 240 h240 (by omega)]
  norm_num

/-- Persisted state: running, wear-level index 0, live slot holds 240. -/
def e240 : Eeprom := fun a => if a = 103 then 1 else if a = 105 then 240 else 0

theorem C10_checkpoint_240_accepted_witness :
    recover e240 = (true, 240) ∧ bootLt e240 = 1440 :=
  (C10_checkpoint_240_accepted e240 (by decide)).1 (by decide)

/-! ## C7 — wear-leveling rotation -/

theorem start_idx (e : Eeprom) (sel : Nat) :
    eread (start_runmode_ee e sel) LAST_TIME_INDEX
      = (eread e LAST_TIME_INDEX + 1) % 16 := by
  have h1 : ¬ (LAST_TIME_INDEX = LAST_PROG) := by unfold LAST_TIME_INDEX LAST_PROG; omega
  have h2 : ¬ (LAST_TIME_INDEX = STATUS) := by unfold LAST_TIME_INDEX STATUS; omega
  have hno : ∀ X : Nat, ¬ (LAST_TIME_INDEX = LAST_TIME_BASE + X) := by
    unfold LAST_TIME_INDEX LAST_TIME_BASE
    omega
  unfold start_runmode_ee LAST_TIME_SIZE
  rw [eread_ewrite, if_neg (hno _), eread_ewrite, if_pos rfl, eread_ewrite, if_neg h1,
      eread_ewrite, if_neg h2]
  omega

theorem start_slot (e : Eeprom) (sel : Nat) :
    eread (start_runmode_ee e sel)
      (LAST_TIME_BASE + eread (start_runmode_ee e sel) LAST_TIME_INDEX) = 0 := by
  have h1 : ¬ (LAST_TIME_INDEX = LAST_PROG) := by unfold LAST_TIME_INDEX LAST_PROG; omega
  have h2 : ¬ (LAST_TIME_INDEX = STATUS) := by unfold LAST_TIME_INDEX STATUS; omega
  rw [start_idx]
  unfold start_runmode_ee LAST_TIME_SIZE
  have h3 : eread (ewrite (ewrite (ewrite e STATUS 1) LAST_PROG sel) LAST_TIME_INDEX
      ((eread (ewrite (ewrite e STATUS 1) LAST_PROG sel) LAST_TIME_INDEX + 1) % 16))
      LAST_TIME_INDEX = (eread e LAST_TIME_INDEX + 1) % 16 := by
    rw [eread_ewrite, if_pos rfl, eread_ewrite, if_neg h1, eread_ewrite, if_neg h2]
    omega
  rw [eread_ewrite, h3, if_pos rfl]

theorem startN_idx (e : Eeprom) (sel : Nat) :
    ∀ n, 1 ≤ n → eread (startN e sel n) LAST_TIME_INDEX
      = (eread e LAST_TIME_INDEX + n) % 16 := by
  intro n
  induction n with
  | zero => omega
  | succ m ih =>
    intro _
    show eread (start_runmode_ee (startN e sel m) sel) LAST_TIME_INDEX = _
    rw [start_idx]
    cases Nat.eq_zero_or_pos m with
    | inl h0 =>
      subst h0
      have h : startN e sel 0 = e := rfl
      rw [h]
    | inr hpos =>
      rw [ih hpos]
      omega

/-- C7: every `start_run` call advances the wear-leveling index to
`(index + 1) mod 16` and resets the newly live log slot to 0, so 16
consecutive `start_run` calls visit all 16 elapsed-time log slots
exactly once before repeating, in rotating order. -/
theorem C7_wear_leveling (e : Eeprom) (sel : Nat) :
    (eread (start_runmode_ee e sel) LAST_TIME_INDEX
      = (eread e LAST_TIME_INDEX + 1) % 16) ∧
    (eread (start_runmode_ee e sel)
      (LAST_TIME_BASE + eread (start_runmode_ee e sel) LAST_TIME_INDEX) = 0) ∧
    (∀ k, k < 16 → ∃ j, 1 ≤ j ∧ j ≤ 16 ∧
      eread (startN e sel j) LAST_TIME_INDEX = k ∧
      ∀ i, 1 ≤ i → i ≤ 16 → eread (startN e sel i) LAST_TIME_INDEX = k → i = j) := by
  refine ⟨start_idx e sel, start_slot e sel, ?_⟩
  intro k hk
  set i0 := eread e LAST_TIME_INDEX with hi0
  refine ⟨16 - ((i0 + 16 - k) % 16), by omega, by omega, ?_, ?_⟩
  · rw [startN_idx e sel _ (by omega)]
    omega
  · intro i h1 h16 hik
    rw [startN_idx e sel i (by omega)] at hik
    omega

theorem C7_wear_leveling_witness :
    eread (startN (fun _ => 0) 0 3) LAST_TIME_INDEX = 3 := by
  obtain ⟨j, hj1, hj16, hidx, huniq⟩ :=
    (C7_wear_leveling (fun _ => 0) 0).2.2 3 (by decide)
  have h3 : eread (startN (fun _ => 0) 0 3) LAST_TIME_INDEX = 3 := by decide
  rw [← huniq 3 (by decide) (by decide) h3] at hidx
  exact hidx

/-! ## Schedule evaluator (`loop()`, run-mode section)

The per-program station walk
`s=3; pt=0; while ((pt <= ct) && (s < STATIONS-3)) { pt += read_eeprom(p,s)*6; s++; }`
is embedded with a fuel argument (`13 - s ≤ fuel` holds at every call,
so the fuel never runs out and the loop condition below is exact). -/

def progScanGo (e : Eeprom) (p ct : Nat) : Nat → Nat → Nat → Nat × Nat
  | 0, pt, s => (pt, s)
  | fuel + 1, pt, s =>
    if pt ≤ ct ∧ s < STATIONS - 3 then
      progScanGo e p ct fuel (pt + read_eeprom e p s * 6) (s + 1)
    else (pt, s)

/-- The station walk for one program: final `(pt, s)` of the while loop. -/
def progScan (e : Eeprom) (p ct : Nat) : Nat × Nat :=
  progScanGo e p ct 10 0 3

/-- Spec-side cumulative sum: `cumul e p s` is the post-accumulation
cumulative duration (in minutes) after stations 3..s of program `p`. -/
def cumul (e : Eeprom) (p : Nat) : Nat → Nat
  | 0 => 0
  | s + 1 => if s + 1 < 3 then 0 else cumul e p s + read_eeprom e p (s + 1) * 6

theorem cumul_succ (e : Eeprom) (p s : Nat) (h : 3 ≤ s + 1) :
    cumul e p (s + 1) = cumul e p s + read_eeprom e p (s + 1) * 6 := by
  rw [cumul, if_neg (by omega)]

theorem cumul_le_succ (e : Eeprom) (p w : Nat) :
    cumul e p w ≤ cumul e p (w + 1) := by
  by_cases h : w + 1 < 3
  · match w, h with
    | 0, _ => simp [cumul]
    | 1, _ => simp [cumul]
  · rw [cumul_succ e p w (by omega)]
    exact Nat.le_add_right _ _

theorem cumul_mono (e : Eeprom) (p : Nat) : ∀ u v, u ≤ v → cumul e p u ≤ cumul e p v := by
  intro u v h
  induction v with
  | zero =>
    have : u = 0 := by omega
    subst this
    exact le_refl _
  | succ w ih =>
    by_cases huv : u = w + 1
    · subst huv; exact le_refl _
    · exact le_trans (ih (by omega)) (cumul_le_succ e p w)

theorem progScanGo_stop (e : Eeprom) (p ct fuel pt s : Nat)
    (h : ¬ (pt ≤ ct ∧ s < STATIONS - 3)) :
    progScanGo e p ct fuel pt s = (pt, s) := by
  cases fuel with
  | zero => rfl
  | succ f =>
    simp only [progScanGo]
    rw [if_neg h]

/-- Loop-invariant characterization of the station walk: starting at
station `s` with `pt = cumul (s-1) ≤ ct`, either the whole program fits
in `ct` and the loop runs off the end, or it stops at the first station
whose cumulative sum exceeds `ct`. -/
theorem progScanGo_spec (e : Eeprom) (p ct : Nat) :
    ∀ fuel s pt, 3 ≤ s → s ≤ 13 → 13 - s ≤ fuel → pt = cumul e p (s - 1) → pt ≤ ct →
      (cumul e p 12 ≤ ct ∧ progScanGo e p ct fuel pt s = (cumul e p 12, 13)) ∨
      (∃ t, s ≤ t ∧ t ≤ 12 ∧ cumul e p t > ct ∧
        (∀ u, 3 ≤ u → u < t → cumul e p u ≤ ct) ∧
        progScanGo e p ct fuel pt s = (cumul e p t, t + 1)) := by
  intro fuel
  induction fuel with
  | zero =>
    intro s pt h3 h13 hfuel hpt hle
    have hs : s = 13 := by omega
    subst hs
    norm_num at hpt
    subst hpt
    exact Or.inl ⟨hle, rfl⟩
  | succ f ih =>
    intro s pt h3 h13 hfuel hpt hle
    by_cases hs13 : s < 13
    · have hcond : pt ≤ ct ∧ s < STATIONS - 3 := ⟨hle, by unfold STATIONS; omega⟩
      simp only [progScanGo]
      rw [if_pos hcond]
      have hptnew : pt + read_eeprom e p s * 6 = cumul e p s := by
        obtain ⟨m, rfl⟩ : ∃ m, s = m + 1 := ⟨s - 1, by omega⟩
        rw [cumul_succ e p m (by omega)]
        norm_num at hpt
        omega
      by_cases hnew : pt + read_eeprom e p s * 6 ≤ ct
      · have hrec := ih (s + 1) (pt + read_eeprom e p s * 6) (by omega) (by omega)
          (by omega) (by rw [hptnew]; norm_num) hnew
        rcases hrec with ⟨hc, hres⟩ | ⟨t, ht1, ht2, ht3, ht4, hres⟩
        · exact Or.inl ⟨hc, hres⟩
        · exact Or.inr ⟨t, by omega, ht2, ht3, ht4, hres⟩
      · right
        refine ⟨s, le_refl s, by omega, by omega, ?_, ?_⟩
        · intro u hu3 hut
          calc cumul e p u ≤ cumul e p (s - 1) := cumul_mono e p u (s - 1) (by omega)
          _ = pt := hpt.symm
          _ ≤ ct := hle
        · rw [progScanGo_stop e p ct f _ _ (by
            intro hco
            exact hnew hco.1)]
          rw [hptnew]
    · have hs : s = 13 := by omega
      subst hs
      rw [progScanGo_stop e p ct (f + 1) pt 13 (by unfold STATIONS; omega)]
      norm_num at hpt
      subst hpt
      exact Or.inl ⟨hle, rfl⟩

theorem progScan_spec (e : Eeprom) (p ct : Nat) :
    (cumul e p 12 ≤ ct ∧ progScan e p ct = (cumul e p 12, 13)) ∨
    (∃ t, 3 ≤ t ∧ t ≤ 12 ∧ cumul e p t > ct ∧
      (∀ u, 3 ≤ u → u < t → cumul e p u ≤ ct) ∧
      progScan e p ct = (cumul e p t, t + 1)) :=
  progScanGo_spec e p ct 10 3 0 (by omega) (by omega) (by omega)
    (by norm_num [cumul]) (Nat.zero_le ct)

/-! ## Per-tick evaluation of all programs (`for(p=1; p < PROGS-1; p++)`) -/

structure EvalOut where
  st : Nat → Nat
  remaining : Nat → Nat
  active : Bool

/-- `st`/`remaining` cleared at the top of each evaluated tick
(`for(s..) { st[s]=0; remaining[s]=0; }`), `station_active=false`. -/
def evalInit : EvalOut := ⟨fun _ => 0, fun _ => 0, false⟩

/-- Body of the per-program loop: if the program is selected
(`station == 0 || station == p`), run the station walk; if `pt > ct`,
turn station `s-1` on, record `remaining[s-1] = max(pt-ct, remaining[s-1])`
and flag activity. -/
def progStep (e : Eeprom) (sel ct : Nat) (acc : EvalOut) (p : Nat) : EvalOut :=
  if sel = 0 ∨ sel = p then
    let r := progScan e p ct
    if r.1 > ct then
      { st := fun i => if i = r.2 - 1 then 1 else acc.st i
        remaining := fun i =>
          if i = r.2 - 1 then max (r.1 - ct) (acc.remaining (r.2 - 1)) else acc.remaining i
        active := true }
    else acc
  else acc

/-- The full program loop of an evaluated tick (programs 1 .. PROGS-2). -/
def evalPrograms (e : Eeprom) (sel ct : Nat) : EvalOut :=
  (List.range' 1 (PROGS - 2)).foldl (progStep e sel ct) evalInit

theorem progStep_skip (e : Eeprom) (sel ct : Nat) (acc : EvalOut) (q : Nat)
    (h0 : sel ≠ 0) (hq : sel ≠ q) : progStep e sel ct acc q = acc := by
  unfold progStep
  rw [if_neg]
  rintro (h | h)
  · exact h0 h
  · exact hq h

theorem foldl_progStep_skip (e : Eeprom) (sel ct : Nat) (h0 : sel ≠ 0) :
    ∀ (l : List Nat) (acc : EvalOut), sel ∉ l →
      l.foldl (progStep e sel ct) acc = acc := by
  intro l
  induction l with
  | nil => intro acc _; rfl
  | cons q l2 ih =>
    intro acc hmem
    rw [List.foldl_cons, progStep_skip e sel ct acc q h0
      (fun h => hmem (h ▸ List.mem_cons_self q l2))]
    exact ih acc (fun h => hmem (List.mem_cons_of_mem q h))

theorem range'_split (p : Nat) (h1 : 1 ≤ p) (h8 : p ≤ 8) :
    List.range' 1 8 = List.range' 1 (p - 1) ++ p :: List.range' (p + 1) (8 - p) := by
  have e1 : 1 + (p - 1) = p := by omega
  have e2 : (9 - p) + (p - 1) = 8 := by omega
  have e3 : 9 - p = (8 - p) + 1 := by omega
  have h := List.range'_append_1 1 (p - 1) (9 - p)
  rw [e1, e2] at h
  rw [← h]
  congr 1
  rw [e3, List.range'_succ]

theorem not_mem_range'_lo (p : Nat) (h1 : 1 ≤ p) : p ∉ List.range' 1 (p - 1) := by
  intro hmem
  obtain ⟨i, hi, he⟩ := List.mem_range'.mp hmem
  omega

theorem not_mem_range'_hi (p : Nat) : p ∉ List.range' (p + 1) (8 - p) := by
  intro hmem
  obtain ⟨i, hi, he⟩ := List.mem_range'.mp hmem
  omega

theorem evalPrograms_single (e : Eeprom) (ct p : Nat) (h1 : 1 ≤ p) (h8 : p ≤ 8) :
    evalPrograms e p ct = progStep e p ct evalInit p := by
  unfold evalPrograms
  have hP : PROGS - 2 = 8 := rfl
  rw [hP, range'_split p h1 h8, List.foldl_append, List.foldl_cons]
  rw [foldl_progStep_skip e p ct (by omega) _ _ (not_mem_range'_lo p h1)]
  exact foldl_progStep_skip e p ct (by omega) _ _ (not_mem_range'_hi p)

theorem foldl_preserve {α β : Type} (P : β → Prop) (f : β → α → β) (l : List α)
    (h : ∀ acc x, P acc → P (f acc x)) : ∀ acc, P acc → P (l.foldl f acc) := by
  induction l with
  | nil => intro acc hp; exact hp
  | cons x xs ih => intro acc hp; exact ih _ (h _ _ hp)

theorem progStep_st_preserve (e : Eeprom) (sel ct : Nat) (acc : EvalOut) (q i : Nat)
    (h : acc.st i = 1) : (progStep e sel ct acc q).st i = 1 := by
  simp only [progStep]
  by_cases h1 : sel = 0 ∨ sel = q
  · rw [if_pos h1]
    by_cases h2 : (progScan e q ct).1 > ct
    · rw [if_pos h2]
      by_cases hi : i = (progScan e q ct).2 - 1 <;> simp [hi, h]
    · rw [if_neg h2]
      exact h
  · rw [if_neg h1]
    exact h

theorem progStep_rem_preserve (e : Eeprom) (sel ct : Nat) (acc : EvalOut) (q i m : Nat)
    (h : m ≤ acc.remaining i) : m ≤ (progStep e sel ct acc q).remaining i := by
  simp only [progStep]
  by_cases h1 : sel = 0 ∨ sel = q
  · rw [if_pos h1]
    by_cases h2 : (progScan e q ct).1 > ct
    · rw [if_pos h2]
      by_cases hi : i = (progScan e q ct).2 - 1
      · subst hi
        simp only [if_pos rfl]
        exact le_trans h (Nat.le_max_right _ _)
      · simp [hi, h]
    · rw [if_neg h2]
      exact h
  · rw [if_neg h1]
    exact h

theorem progStep_sets (e : Eeprom) (sel ct p : Nat) (acc : EvalOut)
    (hsel : sel = 0 ∨ sel = p) (hact : (progScan e p ct).1 > ct) :
    (progStep e sel ct acc p).st ((progScan e p ct).2 - 1) = 1 ∧
    (progScan e p ct).1 - ct ≤ (progStep e sel ct acc p).remaining ((progScan e p ct).2 - 1) ∧
    (progStep e sel ct acc p).active = true := by
  simp only [progStep]
  rw [if_pos hsel, if_pos hact]
  refine ⟨by simp, ?_, rfl⟩
  simp only [if_pos rfl]
  exact Nat.le_max_left _ _

/-- Program 1 has station 3 scheduled for 5 six-minute units (30 min). -/
def eW : Eeprom := fun a => if a = 199 then 5 else 0

/-- C1: for every evaluated tick while running, for each irrigation
program p in 1..5 selected by the run selector (selector 0 means all
programs 1..5), walking stations 3 up to (not including) 13 in ascending
order and accumulating `duration(p, station) * 6` minutes: if the
program's total duration exceeds the elapsed run time `ct`, exactly one
station of that program is active, namely the first station whose
post-accumulation cumulative sum exceeds `ct`, and its remaining time is
that cumulative sum minus `ct` (under the "all" selector the station is
active and its recorded remaining time is at least that value, the code
keeping the max across programs); if the program's total duration is
≤ `ct`, no station of that program is active. -/
theorem C1_schedule_evaluator (e : Eeprom) (p ct : Nat)
    (hp1 : 1 ≤ p) (hp5 : p ≤ MAX_PROG) :
    (cumul e p 12 > ct →
      ∃ t, 3 ≤ t ∧ t ≤ 12 ∧ cumul e p t > ct ∧
        (∀ u, 3 ≤ u → u < t → cumul e p u ≤ ct) ∧
        (∀ s, 3 ≤ s → s ≤ 12 → ((evalPrograms e p ct).st s = 1 ↔ s = t)) ∧
        (evalPrograms e p ct).remaining t = cumul e p t - ct ∧
        (evalPrograms e p ct).active = true ∧
        (evalPrograms e 0 ct).st t = 1 ∧
        cumul e p t - ct ≤ (evalPrograms e 0 ct).remaining t) ∧
    (cumul e p 12 ≤ ct →
      ∀ s, 3 ≤ s → s ≤ 12 → (evalPrograms e p ct).st s = 0) := by
  have hp8 : p ≤ 8 := by unfold MAX_PROG at hp5; omega
  have hsingle := evalPrograms_single e ct p hp1 hp8
  constructor
  · intro hgt
    rcases progScan_spec e p ct with ⟨hle, _⟩ | ⟨t, ht3, ht12, htc, hmin, hres⟩
    · omega
    · have hr1 : (progScan e p ct).1 = cumul e p t := by rw [hres]
      have hr2 : (progScan e p ct).2 = t + 1 := by rw [hres]
      have hact : (progScan e p ct).1 > ct := by rw [hr1]; exact htc
      -- facts about the "all programs" selector
      have hP : PROGS - 2 = 8 := rfl
      have hfold : evalPrograms e 0 ct
          = (List.range' (p + 1) (8 - p)).foldl (progStep e 0 ct)
            (progStep e 0 ct
              ((List.range' 1 (p - 1)).foldl (progStep e 0 ct) evalInit) p) := by
        unfold evalPrograms
        rw [hP, range'_split p hp1 hp8, List.foldl_append, List.foldl_cons]
      have hsets := progStep_sets e 0 ct p
        ((List.range' 1 (p - 1)).foldl (progStep e 0 ct) evalInit) (Or.inl rfl) hact
      rw [hr2, hr1] at hsets
      simp only [Nat.add_sub_cancel] at hsets
      have hall := foldl_preserve
        (fun acc : EvalOut => acc.st t = 1 ∧ cumul e p t - ct ≤ acc.remaining t)
        (progStep e 0 ct) (List.range' (p + 1) (8 - p))
        (fun acc q hpq => ⟨progStep_st_preserve e 0 ct acc q t hpq.1,
          progStep_rem_preserve e 0 ct acc q t _ hpq.2⟩)
        _ ⟨hsets.1, hsets.2.1⟩
      rw [← hfold] at hall
      refine ⟨t, ht3, ht12, htc, hmin, ?_, ?_, ?_, hall.1, hall.2⟩
      · intro s hs3 hs12
        rw [hsingle]
        simp only [progStep]
        rw [if_pos (Or.inr trivial), if_pos hact, hr2]
        simp only [Nat.add_sub_cancel]
        by_cases hst : s = t
        · simp [hst]
        · simp [hst, evalInit]
      · rw [hsingle]
        simp only [progStep]
        rw [if_pos (Or.inr trivial), if_pos hact, hr2, hr1]
        simp only [Nat.add_sub_cancel]
        simp [evalInit]
      · rw [hsingle]
        simp only [progStep]
        rw [if_pos (Or.inr trivial), if_pos hact]
  · intro hle s hs3 hs12
    rcases progScan_spec e p ct with ⟨hle2, hres⟩ | ⟨t, ht3, ht12, htc, hmin, hres⟩
    · have hn : (progScan e p ct).1 = cumul e p 12 := by rw [hres]
      rw [hsingle]
      simp only [progStep]
      rw [if_pos (Or.inr trivial), if_neg (by omega)]
      rfl
    · have := cumul_mono e p t 12 ht12
      omega

theorem C1_schedule_evaluator_witness : (evalPrograms eW 1 0).st 3 = 1 := by
  obtain ⟨hgt, _⟩ := C1_schedule_evaluator eW 1 0 (by decide) (by decide)
  obtain ⟨t, ht3, ht12, htc, hmin, hiff, _⟩ := hgt (by decide)
  have hteq : t = 3 := by
    by_contra hne
    have h4 : 3 < t := by omega
    have hc := hmin 3 (by omega) h4
    have hc3 : cumul eW 1 3 > 0 := by decide
    omega
  subst hteq
  exact (hiff 3 (by omega) (by omega)).mpr rfl

/-! ## Backwash interleaver and the full evaluated tick -/

/-- Backwash stations `uint8_t bws[] = { 1, 2, 0xd }`. -/
def bws : Nat → Nat
  | 0 => 1
  | 1 => 2
  | _ => 13

/-- The backwash walk
`pt=bt; s=0; while ((pt <= ct) && (s < 3)) { if (s<2) pt += read_eeprom(p,bws[s])/10; else pt += read_eeprom(p,bws[s])*6; s++; }`
with the same fuel embedding as `progScanGo`. -/
def bwScanGo (e : Eeprom) (ct : Nat) : Nat → Nat → Nat → Nat × Nat
  | 0, pt, s => (pt, s)
  | fuel + 1, pt, s =>
    if pt ≤ ct ∧ s < 3 then
      bwScanGo e ct fuel
        (pt + (if s < 2 then read_eeprom e (PROGS - 1) (bws s) / 10
               else read_eeprom e (PROGS - 1) (bws s) * 6))
        (s + 1)
    else (pt, s)

def bwScan (e : Eeprom) (ct bt : Nat) : Nat × Nat := bwScanGo e ct 3 bt 0

/-- Result of one pass through the run-mode section of `loop()`. -/
structure TickOut where
  runMode : Bool
  e : Eeprom
  lt : Nat
  bt : Nat
  bwd : Nat
  st : Nat → Nat
  remaining : Nat → Nat
  relays : Nat

/-- `relays=1; for(s=1; s<8; s++) relays = (relays << 1) | (st[s] & 1);` -/
def relaysOf (st : Nat → Nat) : Nat :=
  (List.range' 1 7).foldl (fun r s => (r <<< 1) ||| (st s &&& 1)) 1

/-- One evaluation of the run-mode section of `loop()` (entered with
`run_mode` true), as a function of the globals it reads: the 24-hour
ceiling check, the `lt != ct` tick gate, the checkpoint write, the
program loop, the backwash interleaver and the relay output; `none`
exactly on the out-of-bounds `bws[s-1]` access the C code would make if
the backwash walk stopped before its first station. -/
def tick (e : Eeprom) (sel ct lt bt bwd : Nat) (st0 rem0 : Nat → Nat)
    (relays0 : Nat) : Option TickOut :=
  if ct > 24 * 60 then
    some ⟨false, ewrite e STATUS 0, ct, bt, bwd, st0, rem0, 0⟩
  else if lt = ct then
    some ⟨true, e, lt, bt, bwd, st0, rem0, relays0⟩
  else
    let e1 := ewrite e (LAST_TIME_BASE + eread e LAST_TIME_INDEX) (ct / 6)
    let ev := evalPrograms e1 sel ct
    if ev.active then
      if bwd ≠ 0 then
        some ⟨true, e1, ct, ct + 1, bwd - 1, ev.st, ev.remaining, relaysOf ev.st⟩
      else
        let r := bwScan e1 ct bt
        if r.1 > ct then
          if r.2 = 0 then none
          else
            some ⟨true, e1, ct, bt, bwd,
              fun i => if i = bws (r.2 - 1) then 1 else ev.st i,
              fun i => if i = bws (r.2 - 1) then r.1 - ct else ev.remaining i,
              relaysOf (fun i => if i = bws (r.2 - 1) then 1 else ev.st i)⟩
        else
          some ⟨true, e1, ct, if r.2 = 3 then ct + 1 else bt, bwd,
            ev.st, ev.remaining, relaysOf ev.st⟩
    else
      some ⟨false, ewrite e1 STATUS 0, ct, bt, bwd, ev.st, ev.remaining, 0⟩

theorem progScan_bounds (e : Eeprom) (p ct : Nat) (h : (progScan e p ct).1 > ct) :
    4 ≤ (progScan e p ct).2 ∧ (progScan e p ct).2 ≤ 13 := by
  rcases progScan_spec e p ct with ⟨hle, hres⟩ | ⟨t, ht3, ht12, htc, hmin, hres⟩
  · have h1 : (progScan e p ct).1 = cumul e p 12 := by rw [hres]
    omega
  · have h2 : (progScan e p ct).2 = t + 1 := by rw [hres]
    omega

/-- The irrigation program loop never touches the pump or backwash
stations: stations 0, 1, 2 and 13 stay off after `evalPrograms`. -/
theorem evalPrograms_st_low (e : Eeprom) (sel ct i : Nat) (hi : i < 3 ∨ i = 13) :
    (evalPrograms e sel ct).st i = 0 := by
  unfold evalPrograms
  apply foldl_preserve (fun acc : EvalOut => acc.st i = 0)
  · intro acc q hacc
    simp only [progStep]
    by_cases h1 : sel = 0 ∨ sel = q
    · rw [if_pos h1]
      by_cases h2 : (progScan e q ct).1 > ct
      · rw [if_pos h2]
        have hb := progScan_bounds e q ct h2
        have hne : ¬ i = (progScan e q ct).2 - 1 := by omega
        simp [hne, hacc]
      · rw [if_neg h2]
        exact hacc
    · rw [if_neg h1]
      exact hacc
  · rfl

theorem bwScanGo_le (e : Eeprom) (ct : Nat) :
    ∀ fuel pt s, s ≤ 3 → (bwScanGo e ct fuel pt s).2 ≤ 3 := by
  intro fuel
  induction fuel with
  | zero => intro pt s hs; exact hs
  | succ f ih =>
    intro pt s hs
    simp only [bwScanGo]
    by_cases hc : pt ≤ ct ∧ s < 3
    · rw [if_pos hc]
      exact ih _ _ (by omega)
    · rw [if_neg hc]
      exact hs

theorem bwScan_le (e : Eeprom) (ct bt : Nat) : (bwScan e ct bt).2 ≤ 3 :=
  bwScanGo_le e ct 3 bt 0 (by omega)

/-! ## C2 — 24-hour safety ceiling -/

/-- Program 1 schedules stations 3..6 for 80 units (8 h) each, a total
of 1920 minutes. -/
def eC2 : Eeprom := fun a => if 199 ≤ a ∧ a ≤ 202 then 80 else 0

set_option maxRecDepth 8000 in
/-- C2 counterexample: at elapsed time exactly `ct = 1440` minutes the
code's ceiling test `ct > 24*60` is false, so an evaluated tick with a
schedule still pending keeps the run going (station 6 active) instead of
force-stopping as the claim ("at least 1440") requires. -/
theorem C2_ceiling_counterexample :
    (tick eC2 1 1440 1439 0 1 (fun _ => 0) (fun _ => 0) 0).map TickOut.runMode
        = some true ∧
    (tick eC2 1 1440 1439 0 1 (fun _ => 0) (fun _ => 0) 0).map (fun o => o.st 6)
        = some 1 := by
  constructor
  · decide
  · decide

/-- C2 (amended): on every evaluated tick while running, if the elapsed
run time `ct` strictly exceeds 1440 minutes (24 hours), the run is
force-stopped — Run State becomes off (persisted), the relay outputs are
cleared, and `lt` is set to `ct` so the rest of the run-mode section is
skipped — regardless of the schedule contents and independent of the
per-program logic. -/
theorem C2_safety_ceiling (e : Eeprom) (sel ct lt bt bwd : Nat)
    (st0 rem0 : Nat → Nat) (relays0 : Nat) (hct : ct > 24 * 60) :
    ∃ out, tick e sel ct lt bt bwd st0 rem0 relays0 = some out ∧
      out.runMode = false ∧ out.relays = 0 ∧ eread out.e STATUS = 0 ∧
      out.lt = ct := by
  refine ⟨⟨false, ewrite e STATUS 0, ct, bt, bwd, st0, rem0, 0⟩, ?_, rfl, rfl, ?_, rfl⟩
  · unfold tick
    rw [if_pos hct]
  · rw [eread_ewrite, if_pos rfl]

theorem C2_safety_ceiling_witness :
    (tick (fun _ => 0) 1 1441 1440 0 1 (fun _ => 0) (fun _ => 0) 0).map
      TickOut.runMode = some false := by
  obtain ⟨out, hout, h1, h2, h3, h4⟩ := C2_safety_ceiling (fun _ => 0) 1 1441 1440 0 1
    (fun _ => 0) (fun _ => 0) 0 (by decide)
  rw [hout]
  simp [h1]

/-! ## C6 — backwash gating and exclusivity -/

/-- C6: on every evaluated tick, if no irrigation station is active then
no backwash station (ids 1, 2, 13) is marked active and the backwash
reference clock `bt` is not advanced; and on any evaluated tick at most
one backwash station is active at a time. -/
theorem C6_backwash_gating (e : Eeprom) (sel ct lt bt bwd : Nat)
    (st0 rem0 : Nat → Nat) (relays0 : Nat) (out : TickOut)
    (hclk : ¬ ct > 24 * 60) (hne : lt ≠ ct)
    (hres : tick e sel ct lt bt bwd st0 rem0 relays0 = some out) :
    ((evalPrograms (ewrite e (LAST_TIME_BASE + eread e LAST_TIME_INDEX) (ct / 6))
        sel ct).active = false →
      out.st 1 = 0 ∧ out.st 2 = 0 ∧ out.st 13 = 0 ∧ out.bt = bt) ∧
    ((out.st 1 ≠ 0 → out.st 2 = 0 ∧ out.st 13 = 0) ∧
     (out.st 2 ≠ 0 → out.st 1 = 0 ∧ out.st 13 = 0) ∧
     (out.st 13 ≠ 0 → out.st 1 = 0 ∧ out.st 2 = 0)) := by
  unfold tick at hres
  rw [if_neg hclk, if_neg hne] at hres
  simp only at hres
  set E1 := ewrite e (LAST_TIME_BASE + eread e LAST_TIME_INDEX) (ct / 6) with hE1
  have hz1 : (evalPrograms E1 sel ct).st 1 = 0 := evalPrograms_st_low E1 sel ct 1 (by omega)
  have hz2 : (evalPrograms E1 sel ct).st 2 = 0 := evalPrograms_st_low E1 sel ct 2 (by omega)
  have hz13 : (evalPrograms E1 sel ct).st 13 = 0 := evalPrograms_st_low E1 sel ct 13 (by omega)
  by_cases hact : (evalPrograms E1 sel ct).active = true
  · rw [if_pos hact] at hres
    constructor
    · intro hfalse
      rw [hfalse] at hact
      cases hact
    · by_cases hbwd : bwd ≠ 0
      · rw [if_pos hbwd] at hres
        injection hres with hout
        subst hout
        refine ⟨fun h => absurd hz1 h, fun h => absurd hz2 h, fun h => absurd hz13 h⟩
      · rw [if_neg hbwd] at hres
        by_cases hbw1 : (bwScan E1 ct bt).1 > ct
        · rw [if_pos hbw1] at hres
          by_cases hbw0 : (bwScan E1 ct bt).2 = 0
          · rw [if_pos hbw0] at hres
            cases hres
          · rw [if_neg hbw0] at hres
            injection hres with hout
            subst hout
            have hle3 : (bwScan E1 ct bt).2 ≤ 3 := bwScan_le E1 ct bt
            have h123 : (bwScan E1 ct bt).2 = 1 ∨ (bwScan E1 ct bt).2 = 2 ∨
                (bwScan E1 ct bt).2 = 3 := by omega
            have hbws0 : bws 0 = 1 := rfl
            have hbws1 : bws 1 = 2 := rfl
            have hbws2 : bws 2 = 13 := rfl
            rcases h123 with h | h | h <;> rw [h] <;>
              simp [hbws0, hbws1, hbws2, hz1, hz2, hz13]
        · rw [if_neg hbw1] at hres
          injection hres with hout
          subst hout
          refine ⟨fun h => absurd hz1 h, fun h => absurd hz2 h, fun h => absurd hz13 h⟩
  · rw [if_neg hact] at hres
    injection hres with hout
    subst hout
    exact ⟨fun _ => ⟨hz1, hz2, hz13, rfl⟩,
      fun h => absurd hz1 h, fun h => absurd hz2 h, fun h => absurd hz13 h⟩

theorem C6_backwash_gating_witness :
    (tick (fun _ => 0) 1 1 0 5 1 (fun _ => 0) (fun _ => 0) 0).map
      (fun o => o.st 1) = some 0 := by
  cases hres : tick (fun _ => 0) 1 1 0 5 1 (fun _ => 0) (fun _ => 0) 0 with
  | none =>
    have hs : (tick (fun _ => 0) 1 1 0 5 1 (fun _ => 0) (fun _ => 0) 0).isSome
        = true := by decide
    rw [hres] at hs
    simp at hs
  | some out =>
    have h := C6_backwash_gating (fun _ => 0) 1 1 0 5 1 (fun _ => 0) (fun _ => 0) 0
      out (by decide) (by decide) hres
    have hactf : (evalPrograms (ewrite (fun _ => 0)
        (LAST_TIME_BASE + eread (fun _ => 0) LAST_TIME_INDEX) (1 / 6)) 1 1).active
        = false := by decide
    obtain ⟨ha, _, _, _⟩ := h.1 hactf
    simp [ha]

/-! ## Control state machine (`loop()`, button handling)

The globals `prog`, `station`, `duration`, `run_mode` and the EEPROM,
with one transition per debounced button edge; the run-mode section's
effects on this state are the stop transition (completion or ceiling)
and the per-tick checkpoint write. -/

structure Ctl where
  prog : Nat
  station : Nat
  duration : Nat
  runMode : Bool

/-- Button 1 (mode): leave run mode or persist the pending edit, reset
the station cursor, recompute the checksum when leaving a non-zero
program, advance `prog` through 0,1,2,3,4,5,9,0,…, and load the next
duration. -/
def pressB1 (c : Ctl) (e : Eeprom) : Ctl × Eeprom :=
  let c1 := if c.prog = 0 then { c with runMode := false } else c
  let e1 := if c.prog = 0 then ewrite e STATUS 0
            else update_eeprom e c.prog c.station c.duration
  let c2 := { c1 with station := 3 }
  let e2 := if c2.prog ≠ 0 then update_checksum e1 else e1
  let pr1 := c2.prog + 1
  let pr2 := if pr1 > PROGS - 1 then 0 else pr1
  let c3 := if pr2 > MAX_PROG then { c2 with prog := PROGS - 1, station := 1 }
            else { c2 with prog := pr2 }
  if c3.prog = 0 then ({ c3 with station := 0, duration := 0 }, e2)
  else ({ c3 with duration := read_eeprom e2 c3.prog c3.station }, e2)

/-- Button 2 (advance): in edit mode persist the duration and advance the
station cursor within the program's valid subrange; in idle run mode
cycle the run selector through 0..MAX_PROG. -/
def pressB2 (c : Ctl) (e : Eeprom) : Ctl × Eeprom :=
  if c.prog ≠ 0 then
    let e1 := update_eeprom e c.prog c.station c.duration
    let s1 := c.station + 1
    let s2 := if s1 ≥ STATIONS - 3 then 1 else s1
    let s3 := if c.prog = PROGS - 1 ∧ s2 ≥ 3 then 13 else s2
    let s4 := if c.prog ≠ PROGS - 1 then (if s3 < 3 then 3 else s3) else s3
    let s5 := if c.prog ≠ PROGS - 1 then (if s4 > 7 then 3 else s4) else s4
    ({ c with station := s5, duration := read_eeprom e1 c.prog s5 }, e1)
  else
    if c.runMode = false then
      ({ c with station := if c.station + 1 > MAX_PROG then 0 else c.station + 1 }, e)
    else (c, e)

/-- Button 3 (increment/start): in idle run mode start a run; in edit
mode step the duration to the next multiple of 5 (plus the backwash
half-minute rule), wrapping past 80. -/
def pressB3 (c : Ctl) (e : Eeprom) : Ctl × Eeprom :=
  if c.prog = 0 ∧ c.runMode = false then
    ({ c with runMode := true }, start_runmode_ee e c.station)
  else if c.prog ≠ 0 then
    let d1 := (c.duration / 5 + 1) * 5
    let d2 := if c.prog = PROGS - 1 ∧ c.station < 3 then d1 + 5 else d1
    let d3 := if d2 > 80 then 0 else d2
    ({ c with duration := d3 }, e)
  else (c, e)

/-- Button 4 (clear/stop): zero the duration in idle edit mode; stop any
running mode. -/
def pressB4 (c : Ctl) (e : Eeprom) : Ctl × Eeprom :=
  let c1 := if c.prog ≠ 0 ∧ c.runMode = false then { c with duration := 0 } else c
  if c1.runMode = true then ({ c1 with runMode := false }, ewrite e STATUS 0)
  else (c1, e)

inductive Ev
  | b1 | b2 | b3 | b4 | b8
  | tickStop
  | tickCheckpoint (v : Nat)

/-- One control transition: a button edge, the fast-mode toggle (which
does not touch this state), a run-mode stop (completion or 24-h
ceiling), or a per-tick checkpoint write. -/
def ctlStep (s : Ctl × Eeprom) : Ev → Ctl × Eeprom
  | .b1 => pressB1 s.1 s.2
  | .b2 => pressB2 s.1 s.2
  | .b3 => pressB3 s.1 s.2
  | .b4 => pressB4 s.1 s.2
  | .b8 => s
  | .tickStop => ({ s.1 with runMode := false }, ewrite s.2 STATUS 0)
  | .tickCheckpoint v =>
      (s.1, ewrite s.2 (LAST_TIME_BASE + eread s.2 LAST_TIME_INDEX) v)

/-- Which button transitions invoke `update_eeprom` on the program
table: buttons 1 and 2 write `(prog, station, duration)` exactly when
`prog != 0`. -/
def buttonTableWrite (c : Ctl) : Ev → Option (Nat × Nat × Nat)
  | .b1 => if c.prog = 0 then none else some (c.prog, c.station, c.duration)
  | .b2 => if c.prog ≠ 0 then some (c.prog, c.station, c.duration) else none
  | _ => none

/-- States reachable from boot: `prog` is initialized to 0 and `setup()`
never changes it; station, duration and the recovered run flag are
arbitrary. -/
inductive Reachable : Ctl × Eeprom → Prop
  | boot (st d : Nat) (rm : Bool) (e : Eeprom) : Reachable (⟨0, st, d, rm⟩, e)
  | step (s : Ctl × Eeprom) (ev : Ev) : Reachable s → Reachable (ctlStep s ev)

theorem pressB1_runMode_false (c : Ctl) (e : Eeprom)
    (h : c.runMode = true → c.prog = 0) : (pressB1 c e).1.runMode = false := by
  by_cases hp : c.prog = 0
  · simp [pressB1, hp, PROGS, MAX_PROG]
  · have hrm : c.runMode = false := by
      cases hrmv : c.runMode with
      | false => rfl
      | true => exact absurd (h hrmv) hp
    simp only [pressB1, hp, PROGS, MAX_PROG]
    split_ifs <;> simp [hrm]

theorem pressB2_fields (c : Ctl) (e : Eeprom) :
    (pressB2 c e).1.prog = c.prog ∧ (pressB2 c e).1.runMode = c.runMode := by
  unfold pressB2
  split_ifs <;> exact ⟨rfl, rfl⟩

theorem pressB3_inv (c : Ctl) (e : Eeprom)
    (h : c.runMode = true → c.prog = 0) :
    (pressB3 c e).1.runMode = true → (pressB3 c e).1.prog = 0 := by
  simp only [pressB3]
  by_cases h1 : c.prog = 0 ∧ c.runMode = false
  · rw [if_pos h1]
    intro _
    exact h1.1
  · rw [if_neg h1]
    by_cases h2 : c.prog ≠ 0
    · rw [if_pos h2]
      intro hr
      exact absurd (h hr) h2
    · rw [if_neg h2]
      exact h

theorem pressB4_runMode_false (c : Ctl) (e : Eeprom) :
    (pressB4 c e).1.runMode = false := by
  simp only [pressB4]
  by_cases h1 : c.prog ≠ 0 ∧ c.runMode = false
  · rw [if_pos h1, if_neg (by simp [h1.2])]
    simp [h1.2]
  · rw [if_neg h1]
    by_cases h2 : c.runMode = true
    · rw [if_pos h2]
    · rw [if_neg h2]
      cases hrm : c.runMode with
      | false => rfl
      | true => exact absurd hrm h2

/-- The central invariant: whenever the system is running, the program
cursor is 0. -/
theorem reachable_run_prog (s : Ctl × Eeprom) (h : Reachable s) :
    s.1.runMode = true → s.1.prog = 0 := by
  induction h with
  | boot st d rm e => intro _; rfl
  | step s2 ev hs ih =>
    cases ev with
    | b1 =>
      show (pressB1 s2.1 s2.2).1.runMode = true → (pressB1 s2.1 s2.2).1.prog = 0
      intro hr
      rw [pressB1_runMode_false s2.1 s2.2 ih] at hr
      cases hr
    | b2 =>
      show (pressB2 s2.1 s2.2).1.runMode = true → (pressB2 s2.1 s2.2).1.prog = 0
      have hf := pressB2_fields s2.1 s2.2
      intro hr
      rw [hf.1]
      exact ih (by rw [← hf.2]; exact hr)
    | b3 => exact pressB3_inv s2.1 s2.2 ih
    | b4 =>
      show (pressB4 s2.1 s2.2).1.runMode = true → (pressB4 s2.1 s2.2).1.prog = 0
      intro hr
      rw [pressB4_runMode_false s2.1 s2.2] at hr
      cases hr
    | b8 => exact ih
    | tickStop =>
      intro hr
      exact absurd hr (by simp [ctlStep])
    | tickCheckpoint v => exact ih

/-- C8: in every reachable state, a program-table duration write (the
`update_eeprom` calls driven by the edit buttons) happens only while Run
State is off: whenever the system is running the program cursor is 0, so
every button transition that writes a table entry requires `prog != 0`
and is therefore only taken while not running. -/
theorem C8_no_edit_while_running (s : Ctl × Eeprom) (h : Reachable s) :
    (s.1.runMode = true → s.1.prog = 0) ∧
    (∀ ev, buttonTableWrite s.1 ev ≠ none → s.1.runMode = false) := by
  have hinv := reachable_run_prog s h
  refine ⟨hinv, ?_⟩
  intro ev hw
  have hp : s.1.prog ≠ 0 := by
    intro hp0
    apply hw
    cases ev <;> simp [buttonTableWrite, hp0]
  cases hrm : s.1.runMode with
  | false => rfl
  | true => exact absurd (hinv hrm) hp

theorem C8_no_edit_while_running_witness :
    (ctlStep (⟨0, 0, 0, false⟩, fun _ => 0) Ev.b3).1.prog = 0 := by
  have h := C8_no_edit_while_running (ctlStep (⟨0, 0, 0, false⟩, fun _ => 0) Ev.b3)
    (Reachable.step _ _ (Reachable.boot 0 0 false _))
  exact h.1 (by decide)

/-! ## C9 — the mode button -/

theorem pressB1_snd_zero (c : Ctl) (e : Eeprom) (hp : c.prog = 0) :
    (pressB1 c e).2 = ewrite e STATUS 0 := by
  simp [pressB1, hp, PROGS, MAX_PROG]

theorem pressB1_snd_nonzero (c : Ctl) (e : Eeprom) (hp : c.prog ≠ 0) :
    (pressB1 c e).2
      = update_checksum (update_eeprom e c.prog c.station c.duration) := by
  simp only [pressB1, if_neg hp, if_pos hp]
  split_ifs <;> rfl

set_option maxRecDepth 8000 in
/-- C9 counterexample: pressing the mode button at program 0 does not
recompute the checksum. Starting from an all-zero EEPROM, whose stored
checksum bytes (0) do not match the Fletcher value of the zero table,
the stored checksum still disagrees with the table checksum after the
press; had the press recomputed it, the two would agree. -/
theorem C9_mode_counterexample :
    storedChecksum (pressB1 ⟨0, 0, 0, false⟩ (fun _ => 0)).2
      ≠ checksum (pressB1 ⟨0, 0, 0, false⟩ (fun _ => 0)).2 := by
  decide

/-- C9 (amended): pressing the mode button cycles the program cursor
through 0,1,2,3,4,5,9 and back to 0; when it leaves a non-zero program
it persists the pending duration edit to the table and then recomputes
the checksum (so the stored checksum matches the table afterwards);
leaving program 0 performs no checksum update — the stored checksum
bytes are untouched (the press only stops any running mode). -/
theorem C9_mode_button (c : Ctl) (e : Eeprom) :
    ((c.prog = 0 → (pressB1 c e).1.prog = 1) ∧
     (1 ≤ c.prog → c.prog ≤ 4 → (pressB1 c e).1.prog = c.prog + 1) ∧
     (c.prog = 5 → (pressB1 c e).1.prog = 9) ∧
     (c.prog = 9 → (pressB1 c e).1.prog = 0)) ∧
    (c.prog ≠ 0 →
      read_eeprom (pressB1 c e).2 c.prog c.station = c.duration % 256 ∧
      storedChecksum (pressB1 c e).2 = checksum (pressB1 c e).2) ∧
    (c.prog = 0 →
      eread (pressB1 c e).2 CK1 = eread e CK1 ∧
      eread (pressB1 c e).2 CK2 = eread e CK2) := by
  refine ⟨⟨?_, ?_, ?_, ?_⟩, ?_, ?_⟩
  · intro hp
    simp [pressB1, hp, PROGS, MAX_PROG]
  · intro h1 h4
    have hcase : c.prog = 1 ∨ c.prog = 2 ∨ c.prog = 3 ∨ c.prog = 4 := by omega
    rcases hcase with hp | hp | hp | hp <;> simp [pressB1, hp, PROGS, MAX_PROG]
  · intro hp
    simp [pressB1, hp, PROGS, MAX_PROG]
  · intro hp
    simp [pressB1, hp, PROGS, MAX_PROG]
  · intro hp
    rw [pressB1_snd_nonzero c e hp]
    constructor
    · rw [read_update_checksum_eq]
      unfold read_eeprom update_eeprom
      rw [eread_ewrite, if_pos rfl]
    · rw [stored_after_update, checksum_update_checksum]
  · intro hp
    rw [pressB1_snd_zero c e hp]
    constructor <;> rw [eread_ewrite] <;> simp [CK1, CK2, STATUS]

theorem C9_mode_button_witness :
    (pressB1 ⟨5, 3, 0, false⟩ (fun _ => 0)).1.prog = 9 :=
  ((C9_mode_button ⟨5, 3, 0, false⟩ (fun _ => 0)).1.2.2.1) rfl

end Irrigation
